import Mathlib

/-!
Verification of the skill-extraction / federated-search pipeline of
`src/Graph/src/graphClient.ts` (the latest iteration of the file, lines
358-606): `getUserBySkills`, `extractFilters`, the inline query builder,
`runSearchFor` and `combineResults`, plus the `GraphClient` constructor.

The external collaborators (the Azure OpenAI chat call, the SharePoint
search HTTP endpoint) are modelled by explicit behavior values, so that
every theorem quantifies over every possible behavior of those backends:
any response text, any HTTP status, network errors and malformed payloads.
JavaScript peculiarities that the source relies on are modelled faithfully:
string truthiness (the empty string is falsy), `String.prototype.trim`
(Unicode whitespace), `Set` insertion-order semantics, and the first-match
cell lookup of `runSearchFor`.
-/

/-- The set of characters removed by JavaScript `trim()` and matched by the
`\s` regex class: ASCII whitespace plus the Unicode space separators. -/
def jsWhitespace (c : Char) : Bool :=
  c = ' ' || c = '\t' || c = '\n' || c = '\r' || c = '\x0b' || c = '\x0c' ||
  c = '\xa0' || c.val = 0x1680 || (0x2000 ≤ c.val && c.val ≤ 0x200a) ||
  c.val = 0x2028 || c.val = 0x2029 || c.val = 0x202f || c.val = 0x205f ||
  c.val = 0x3000 || c.val = 0xfeff

/-- Drop leading and trailing JS whitespace of a character list. -/
def jsTrimList (l : List Char) : List Char :=
  ((l.dropWhile jsWhitespace).reverse.dropWhile jsWhitespace).reverse

/-- JavaScript `String.prototype.trim`. -/
def jsTrim (s : String) : String :=
  (jsTrimList s.toList).asString

/-- JavaScript `String.prototype.toLowerCase` (on the basic plane handled by
`Char.toLower`). -/
def lowerStr (s : String) : String :=
  (s.toList.map Char.toLower).asString

/-- `v.getD ""`: the empty string for a missing optional string. -/
def orEmpty : Option String → String
  | some s => s
  | none => ""

/-- JS truthiness of an optional string: defined and non-empty. -/
def strTruthy : Option String → Bool
  | some s => s ≠ ""
  | none => false

/-- The delimiter class `[,;|\n\/]` used by the source both to split the
`Skills` cell value and in the heuristic fallback of `extractFilters`. -/
def isDelim (c : Char) : Bool :=
  c = ',' || c = ';' || c = '|' || c = '\n' || c = '/'

/-- Split a character list at delimiters; the accumulator holds the current
segment reversed.  Mirrors `String.prototype.split` (a run of delimiters
produces empty segments which the callers filter away). -/
def splitSeg : List Char → List Char → List (List Char)
  | [], acc => [acc.reverse]
  | c :: cs, acc =>
    if isDelim c then acc.reverse :: splitSeg cs [] else splitSeg cs (c :: acc)

/-- `s.split(/[,;|\n\/]+/).map(x => x.trim()).filter(Boolean)`: the
non-empty trimmed segments of `s` between delimiters. -/
def splitDelims (s : String) : List String :=
  ((splitSeg s.toList []).map (fun l => jsTrim l.asString)).filter (fun t => t ≠ "")

/-- `Array.from(new Set(xs))` for strings: removes duplicates keeping the
first occurrence of each element, in insertion order. -/
def jsSetDedup (xs : List String) : List String :=
  xs.foldl (fun acc x => if x ∈ acc then acc else acc ++ [x]) []

/-- The person shape returned by `getUserBySkills` / `runSearchFor`
(source lines 377, 512): optional fields are JS `undefined` when `none`. -/
structure PersonRecord where
  displayName : String
  workEmail : Option String := none
  skills : Option (List String) := none
  department : Option String := none
  location : Option String := none
deriving DecidableEq, Repr

/-- One `{Key, Value}` cell of a SharePoint result row.  A `null` or missing
`Value` is modelled as the empty string, which the source treats identically
(both are falsy in the `cell && cell.Value` test). -/
structure Cell where
  Key : String
  Value : String
deriving DecidableEq, Repr

/-- The `findValue` helper of `runSearchFor` (source lines 537-543): for each
candidate key in order, look up the first cell with that exact key; return
its value if truthy, otherwise move on to the next key. -/
def findValue (cells : List Cell) : List String → Option String
  | [] => none
  | k :: ks =>
    match cells.find? (fun c => c.Key = k) with
    | some c => if c.Value ≠ "" then some c.Value else findValue cells ks
    | none => findValue cells ks

/-- Row parsing of `runSearchFor` (source lines 535-565): alias lists per
logical field, skills split on delimiters, all values trimmed, empty skills
list normalized to `undefined`. -/
def parseRow (cells : List Cell) : PersonRecord :=
  let name := orEmpty (findValue cells ["PreferredName", "Title", "AccountName"])
  let email := findValue cells ["WorkEmail", "AccountName", "SPS-Mail"]
  let rawSkills := orEmpty (findValue cells ["Skills", "PeopleKeywords", "Tags", "RefinableString01"])
  let department := findValue cells ["Department", "SPS-Department", "Office"]
  let location := findValue cells ["Office", "SPS-Location", "Location", "OfficeNumber"]
  let sk := splitDelims rawSkills
  { displayName := jsTrim name,
    workEmail := email.map jsTrim,
    skills := if sk.isEmpty then none else some sk,
    department := department.map jsTrim,
    location := location.map jsTrim }

/-- The body the search backend hands back once a response arrived:
either a payload that fails JSON parsing (`resp.json()` throws), or the
parsed `PrimaryQueryResult.RelevantResults.Table.Rows` (an absent table is
the empty row list, via the `?? []` in the source). -/
inductive BackendBody where
  | malformed
  | json (rows : List (List Cell))

/-- A behavior of the SharePoint search backend for one request: a network
error (`fetch` rejects), or a response with an HTTP status and a body. -/
inductive BackendResponse where
  | networkError
  | http (status : Nat) (body : BackendBody)

/-- `Response.ok`: status in the 2xx range. -/
def respOk (status : Nat) : Bool :=
  decide (200 ≤ status ∧ status ≤ 299)

/-- The `try` block of `runSearchFor` (source lines 525-567): an `error`
value is an exception that the catch handler will turn into `[]`.  A non-2xx
response is logged and resolved to `ok []` inside the block itself. -/
def runSearchForTry (resp : BackendResponse) : Except Unit (List PersonRecord) :=
  match resp with
  | .networkError => Except.error ()
  | .http status body =>
    if respOk status then
      match body with
      | .malformed => Except.error ()
      | .json rows => Except.ok ((rows.map parseRow).filter (fun u => u.displayName ≠ ""))
    else Except.ok []

/-- `runSearchFor` (source lines 512-572): the `try` block with its catch
handler, which logs and returns the empty result set. -/
def runSearchFor (resp : BackendResponse) : List PersonRecord :=
  match runSearchForTry resp with
  | Except.ok users => users
  | Except.error _ => []

/-- The filter object produced by `extractFilters` (source line 415):
`{ skills: string[], department?: string, officeNumber?: string }`. -/
structure ExtractedFilters where
  skills : List String
  department : Option String := none
  officeNumber : Option String := none
deriving DecidableEq, Repr

/-- The projections of `JSON.parse(extracted)` that the source reads when
the parse yields an object (source lines 448-456): `skills` is `some`
exactly when `Array.isArray(parsed.skills)`, holding the `String(s)` of
each element; `department` / `officeNumber` are `some` exactly when the
respective `??`-chain over the accepted alternate keys picks a truthy
value, holding its `String(...)` rendering. -/
structure ParsedObj where
  skills : Option (List String) := none
  department : Option String := none
  officeNumber : Option String := none

/-- A behavior of the Azure OpenAI extraction call: the call rejects
(network / auth / rate-limit error), or it completes with a message content
(`choices[0].message.content ?? ''`) whose JSON parse either yields an
object (`some` projections) or fails / yields a non-object (`none`; both
cases reach the same heuristic fallback in the source). -/
inductive LLMBehavior where
  | callError
  | response (content : String) (parsed : Option ParsedObj)

/-- `parsed.skills.map(s => String(s).trim()).filter(Boolean)` with
`[]` when `parsed.skills` is not an array (source line 450). -/
def parsedSkills (p : ParsedObj) : List String :=
  ((p.skills.getD []).map jsTrim).filter (fun s => s ≠ "")

/-- `if (v && String(v).trim()) result.f = String(v).trim()` (source lines
455-456): keep a truthy value whose trim is non-empty, trimmed. -/
def truthyTrim : Option String → Option String
  | some s => if jsTrim s ≠ "" then some (jsTrim s) else none
  | none => none

/-- The structured branch of `extractFilters` (source lines 449-460):
`some` when the parsed object yields skills or a department/office filter,
`none` when control falls through to the heuristic fallback. -/
def structuredFilters (p : ParsedObj) : Option ExtractedFilters :=
  let sk := parsedSkills p
  let department := truthyTrim p.department
  let officeNumber := truthyTrim p.officeNumber
  if !sk.isEmpty || department.isSome || officeNumber.isSome then
    some { skills := sk, department := department, officeNumber := officeNumber }
  else none

/-- The heuristic fallback of `extractFilters` (source lines 465-500).
`detect` stands for the regex helper of source lines 469-492; it returns
the optional `(department, officeNumber)` captures for a text.  It is kept
as an explicit function parameter (a pure function of its input text, as
the source's regexes are); it can only influence the `department` and
`officeNumber` fields, never `skills`, and the theorems below quantify over
every possible `detect`. -/
def heuristicFilters (detect : String → Option String × Option String)
    (extracted query : String) : ExtractedFilters :=
  let fallbackSkills := splitDelims extracted
  let heur0 := detect extracted
  let heur := if orEmpty heur0.1 = "" ∧ orEmpty heur0.2 = "" then detect query else heur0
  { skills := if fallbackSkills.isEmpty then [query] else fallbackSkills,
    department := if orEmpty heur.1 = "" then none else heur.1,
    officeNumber := if orEmpty heur.2 = "" then none else heur.2 }

/-- The `try` block of `extractFilters` (source lines 428-500): an `error`
value is a call-level exception that the catch handler resolves to the
default result. -/
def extractFiltersTry (llm : LLMBehavior)
    (detect : String → Option String × Option String)
    (query : String) : Except Unit ExtractedFilters :=
  match llm with
  | .callError => Except.error ()
  | .response content parsed =>
    let extracted := jsTrim content
    if extracted = "" then Except.ok { skills := [query] }
    else
      match parsed with
      | some p =>
        match structuredFilters p with
        | some r => Except.ok r
        | none => Except.ok (heuristicFilters detect extracted query)
      | none => Except.ok (heuristicFilters detect extracted query)

/-- `extractFilters` (source lines 415-507): when the OpenAI endpoint or
key is not configured, return `{ skills: [query] }` at once; otherwise run
the extraction call, any exception degrading to the same default. -/
def extractFilters (configured : Bool) (llm : LLMBehavior)
    (detect : String → Option String × Option String)
    (query : String) : ExtractedFilters :=
  if !configured then { skills := [query] }
  else
    match extractFiltersTry llm detect query with
    | Except.ok r => r
    | Except.error _ => { skills := [query] }

/-- Does the value contain a character of the regex class `[\s:\(\)\"]`
(source line 387)? -/
def hasSpecialChar (v : String) : Bool :=
  v.toList.any (fun c => jsWhitespace c || c = ':' || c = '(' || c = ')' || c = '"')

/-- The quoting helper `q` of `getUserBySkills` (source line 387): wrap the
value in double quotes when it contains whitespace, a colon, a parenthesis
or a double quote. -/
def q (v : String) : String :=
  if hasSpecialChar v then ("\"") ++ v ++ ("\"") else v

/-- The query-building block of `getUserBySkills` (source lines 382-406):
one fielded query per unique trimmed non-empty skill, AND-ed with the
department and office filters when present; a single combined query when
only department/office are present; a raw-query fallback otherwise. -/
def buildSearchQueries (filters : ExtractedFilters) (query : String) : List String :=
  let uniqueSkills := jsSetDedup ((filters.skills.map jsTrim).filter (fun s => s ≠ ""))
  if !uniqueSkills.isEmpty then
    uniqueSkills.map (fun skill =>
      let part1 := ("Skills:") ++ q skill
      let part2 :=
        if strTruthy filters.department then
          part1 ++ (" AND Department:") ++ q (orEmpty filters.department)
        else part1
      let part3 :=
        if strTruthy filters.officeNumber then
          part2 ++ (" AND OfficeNumber:") ++ q (orEmpty filters.officeNumber)
        else part2
      ("(") ++ part3 ++ (")"))
  else if strTruthy filters.department || strTruthy filters.officeNumber then
    let parts :=
      (if strTruthy filters.officeNumber then
        [("OfficeNumber:") ++ q (orEmpty filters.officeNumber)] else []) ++
      (if strTruthy filters.department then
        [("Department:") ++ q (orEmpty filters.department)] else [])
    [("(") ++ (" AND ").intercalate parts ++ (")")]
  else
    [("(Skills:") ++ q query ++ (")")]

/-- The dedup key of `combineResults` (source line 581): the lowercased
`workEmail` when truthy, else the verbatim `displayName`. -/
def recordKey (u : PersonRecord) : String :=
  match u.workEmail with
  | some e => if e ≠ "" then ("email:") ++ lowerStr e else ("name:") ++ u.displayName
  | none => ("name:") ++ u.displayName

/-- The clone pushed on the first occurrence of a key (source lines
585-591): same fields, with the skills array deduplicated via `new Set`. -/
def cloneRecord (u : PersonRecord) : PersonRecord :=
  { displayName := u.displayName,
    workEmail := u.workEmail,
    skills := u.skills.map jsSetDedup,
    department := u.department,
    location := u.location }

/-- First merge statement of the duplicate branch (source lines 595-598):
`if (user.skills && user.skills.length)` union the skill sets via a `Set`
seeded with the existing skills then the new ones. -/
def mergeSkills (user existing : PersonRecord) : PersonRecord :=
  match user.skills with
  | some us =>
    if !us.isEmpty then
      { existing with skills := some (jsSetDedup ((existing.skills.getD []) ++ us)) }
    else existing
  | none => existing

/-- Second merge statement (source line 599): fill `department` only when
the existing value is falsy and the incoming one truthy. -/
def mergeDept (user existing : PersonRecord) : PersonRecord :=
  if !strTruthy existing.department && strTruthy user.department then
    { existing with department := user.department }
  else existing

/-- Third merge statement (source line 600): fill `location` only when the
existing value is falsy and the incoming one truthy. -/
def mergeLoc (user existing : PersonRecord) : PersonRecord :=
  if !strTruthy existing.location && strTruthy user.location then
    { existing with location := user.location }
  else existing

/-- The in-place merge of a later record into the existing entry with the
same key (source lines 592-601): the three statements in program order. -/
def mergeInto (user existing : PersonRecord) : PersonRecord :=
  mergeLoc user (mergeDept user (mergeSkills user existing))

/-- Replace the first element of the list whose key is `key` by its image
under `f`: the effect of the source's `combined.find(...)` followed by
in-place mutation (source line 594). -/
def updateFirst (key : String) (f : PersonRecord → PersonRecord) :
    List PersonRecord → List PersonRecord
  | [] => []
  | v :: vs => if recordKey v = key then f v :: vs else v :: updateFirst key f vs

/-- One iteration of the inner loop of `combineResults` (source lines
580-602), acting on the `(seen, combined)` state. -/
def combineStep (st : List String × List PersonRecord) (user : PersonRecord) :
    List String × List PersonRecord :=
  if recordKey user ∈ st.1 then
    (st.1, updateFirst (recordKey user) (mergeInto user) st.2)
  else
    (st.1 ++ [recordKey user], st.2 ++ [cloneRecord user])

/-- `combineResults` (source lines 576-605): fold every record of every
result set, in emission order, through `combineStep`. -/
def combineResults (resultsArrays : List (List PersonRecord)) : List PersonRecord :=
  (resultsArrays.foldl (fun st arr => arr.foldl combineStep st)
    (([] : List String), ([] : List PersonRecord))).2

/-- The behavior of every external collaborator during one
`getUserBySkills` call: whether the OpenAI endpoint and key are configured,
the extraction call's behavior, the regex `detect` helper, and the search
backend's response per built query string. -/
structure SearchEnv where
  configured : Bool
  llm : LLMBehavior
  detect : String → Option String × Option String
  backend : String → BackendResponse

/-- `getUserBySkills` (source lines 377-411): extract filters, build the
search queries, run each against the backend, and merge the result sets. -/
def getUserBySkills (env : SearchEnv) (query : String) : List PersonRecord :=
  let filters := extractFilters env.configured env.llm env.detect query
  let searchQueries := buildSearchQueries filters query
  combineResults (searchQueries.map (fun s => runSearchFor (env.backend s)))

/-- `getUserBySkills` in an explicit exception monad: the source body has no
try/catch of its own, so an exception escaping any callee would surface to
the caller; the callees resolve all their failures internally, so the call
always returns `ok`. -/
def getUserBySkillsE (env : SearchEnv) (query : String) :
    Except Unit (List PersonRecord) :=
  Except.ok (getUserBySkills env query)

/-- The `GraphClient` constructor (source lines 362-375): reject an empty or
whitespace-only token, otherwise store it. -/
def graphClientConstructor (token : String) : Except String String :=
  if token = "" ∨ jsTrim token = "" then
    Except.error ("GraphClient: Invalid token received.")
  else Except.ok token

/-! ### Properties of the JS `Set` deduplication -/

theorem mem_jsSetDedup_foldl (l : List String) :
    ∀ (acc : List String) (x : String),
      (x ∈ l.foldl (fun acc y => if y ∈ acc then acc else acc ++ [y]) acc ↔
        x ∈ acc ∨ x ∈ l) := by
  induction l with
  | nil => intro acc x; simp
  | cons y ys ih =>
    intro acc x
    simp only [List.foldl_cons]
    by_cases hy : y ∈ acc
    · rw [if_pos hy, ih]
      simp only [List.mem_cons]
      constructor
      · rintro (h | h)
        · exact Or.inl h
        · exact Or.inr (Or.inr h)
      · rintro (h | rfl | h)
        · exact Or.inl h
        · exact Or.inl hy
        · exact Or.inr h
    · rw [if_neg hy, ih]
      simp only [List.mem_append, List.mem_singleton, List.mem_cons]
      tauto

theorem mem_jsSetDedup (l : List String) (x : String) :
    x ∈ jsSetDedup l ↔ x ∈ l := by
  unfold jsSetDedup
  rw [mem_jsSetDedup_foldl]
  simp

theorem jsSetDedup_snoc (l : List String) (x : String) :
    jsSetDedup (l ++ [x]) =
      if x ∈ l then jsSetDedup l else jsSetDedup l ++ [x] := by
  unfold jsSetDedup
  rw [List.foldl_append]
  simp only [List.foldl_cons, List.foldl_nil]
  by_cases h : x ∈ l
  · rw [if_pos h, if_pos]
    exact (mem_jsSetDedup l x).2 h
  · rw [if_neg h, if_neg]
    intro hmem
    exact h ((mem_jsSetDedup l x).1 hmem)

/-! ### Frame properties of the merge operations and the dedup key -/

theorem recordKey_congr {u v : PersonRecord} (h1 : u.workEmail = v.workEmail)
    (h2 : u.displayName = v.displayName) : recordKey u = recordKey v := by
  unfold recordKey
  rw [h1, h2]

theorem mergeSkills_workEmail (user existing : PersonRecord) :
    (mergeSkills user existing).workEmail = existing.workEmail := by
  unfold mergeSkills
  cases user.skills <;> simp only [] <;> split <;> rfl

theorem mergeSkills_displayName (user existing : PersonRecord) :
    (mergeSkills user existing).displayName = existing.displayName := by
  unfold mergeSkills
  cases user.skills <;> simp only [] <;> split <;> rfl

theorem mergeSkills_department (user existing : PersonRecord) :
    (mergeSkills user existing).department = existing.department := by
  unfold mergeSkills
  cases user.skills <;> simp only [] <;> split <;> rfl

theorem mergeSkills_location (user existing : PersonRecord) :
    (mergeSkills user existing).location = existing.location := by
  unfold mergeSkills
  cases user.skills <;> simp only [] <;> split <;> rfl

theorem mergeDept_workEmail (user existing : PersonRecord) :
    (mergeDept user existing).workEmail = existing.workEmail := by
  unfold mergeDept
  split <;> rfl

theorem mergeDept_displayName (user existing : PersonRecord) :
    (mergeDept user existing).displayName = existing.displayName := by
  unfold mergeDept
  split <;> rfl

theorem mergeDept_skills (user existing : PersonRecord) :
    (mergeDept user existing).skills = existing.skills := by
  unfold mergeDept
  split <;> rfl

theorem mergeDept_location (user existing : PersonRecord) :
    (mergeDept user existing).location = existing.location := by
  unfold mergeDept
  split <;> rfl

theorem mergeLoc_workEmail (user existing : PersonRecord) :
    (mergeLoc user existing).workEmail = existing.workEmail := by
  unfold mergeLoc
  split <;> rfl

theorem mergeLoc_displayName (user existing : PersonRecord) :
    (mergeLoc user existing).displayName = existing.displayName := by
  unfold mergeLoc
  split <;> rfl

theorem mergeLoc_skills (user existing : PersonRecord) :
    (mergeLoc user existing).skills = existing.skills := by
  unfold mergeLoc
  split <;> rfl

theorem mergeLoc_department (user existing : PersonRecord) :
    (mergeLoc user existing).department = existing.department := by
  unfold mergeLoc
  split <;> rfl

theorem mergeInto_workEmail (user existing : PersonRecord) :
    (mergeInto user existing).workEmail = existing.workEmail := by
  unfold mergeInto
  rw [mergeLoc_workEmail, mergeDept_workEmail, mergeSkills_workEmail]

theorem mergeInto_displayName (user existing : PersonRecord) :
    (mergeInto user existing).displayName = existing.displayName := by
  unfold mergeInto
  rw [mergeLoc_displayName, mergeDept_displayName, mergeSkills_displayName]

theorem mergeInto_key (user existing : PersonRecord) :
    recordKey (mergeInto user existing) = recordKey existing :=
  recordKey_congr (mergeInto_workEmail user existing) (mergeInto_displayName user existing)

theorem cloneRecord_key (u : PersonRecord) :
    recordKey (cloneRecord u) = recordKey u :=
  recordKey_congr rfl rfl

/-! ### Properties of the in-place update of the combined list -/

theorem updateFirst_map_key (f : PersonRecord → PersonRecord)
    (hf : ∀ w, recordKey (f w) = recordKey w) (key : String) :
    ∀ l : List PersonRecord,
      (updateFirst key f l).map recordKey = l.map recordKey := by
  intro l
  induction l with
  | nil => rfl
  | cons v vs ih =>
    unfold updateFirst
    split_ifs with h
    · simp [hf v]
    · simp [ih]

theorem updateFirst_filter_ne (f : PersonRecord → PersonRecord)
    (hf : ∀ w, recordKey (f w) = recordKey w) (k key : String) (hkk : key ≠ k) :
    ∀ l : List PersonRecord,
      (updateFirst key f l).filter (fun v => recordKey v = k) =
        l.filter (fun v => recordKey v = k) := by
  intro l
  induction l with
  | nil => rfl
  | cons v vs ih =>
    unfold updateFirst
    split_ifs with h
    · have h1 : ¬ (recordKey (f v) = k) := by rw [hf v, h]; exact hkk
      have h2 : ¬ (recordKey v = k) := by rw [h]; exact hkk
      simp [List.filter_cons, h1, h2]
    · simp only [List.filter_cons, ih]

theorem updateFirst_filter_eq (f : PersonRecord → PersonRecord)
    (hf : ∀ w, recordKey (f w) = recordKey w) (k : String) (w : PersonRecord) :
    ∀ l : List PersonRecord,
      l.filter (fun v => recordKey v = k) = [w] →
      (updateFirst k f l).filter (fun v => recordKey v = k) = [f w] := by
  intro l
  induction l with
  | nil => intro h; simp at h
  | cons v vs ih =>
    intro hl
    rw [List.filter_cons] at hl
    unfold updateFirst
    split_ifs with h
    · rw [if_pos (by simp [h])] at hl
      obtain ⟨rfl, htail⟩ := List.cons.injEq .. ▸ hl
      rw [List.filter_cons, if_pos (by simp [hf, h]), htail]
    · rw [if_neg (by simp [h])] at hl
      rw [List.filter_cons, if_neg (by simp [h])]
      exact ih hl

/-! ### The fold underlying `combineResults` and its characterization -/

/-- `combineResults` as a single fold over the concatenated record stream. -/
def foldCombine (users : List PersonRecord) : List String × List PersonRecord :=
  users.foldl combineStep (([] : List String), ([] : List PersonRecord))

/-- The record that a stream of same-key occurrences collapses to: the
first occurrence cloned, then every later one merged in, in order. -/
def mergeChain : List PersonRecord → List PersonRecord
  | [] => []
  | u :: us => [us.foldl (fun acc w => mergeInto w acc) (cloneRecord u)]

theorem foldCombine_snoc (us : List PersonRecord) (u : PersonRecord) :
    foldCombine (us ++ [u]) = combineStep (foldCombine us) u := by
  unfold foldCombine
  rw [List.foldl_append]
  rfl

theorem chain_key (rest : List PersonRecord) :
    ∀ acc : PersonRecord,
      recordKey (rest.foldl (fun acc w => mergeInto w acc) acc) = recordKey acc := by
  induction rest with
  | nil => intro acc; rfl
  | cons w ws ih =>
    intro acc
    rw [List.foldl_cons, ih, mergeInto_key]

theorem combineResults_eq_foldCombine (rss : List (List PersonRecord)) :
    combineResults rss = (foldCombine rss.flatten).2 := by
  unfold combineResults foldCombine
  rw [List.foldl_flatten]

/-- Characterization of the `combineResults` fold, per key `k`: a key is in
`seen` exactly when some processed record bears it, and the combined list
holds, among records with key `k`, exactly the `mergeChain` collapse of the
processed records with that key, in processing order. -/
theorem foldCombine_spec (users : List PersonRecord) (k : String) :
    ((k ∈ (foldCombine users).1) ↔
      users.filter (fun u => recordKey u = k) ≠ []) ∧
    (foldCombine users).2.filter (fun v => recordKey v = k) =
      mergeChain (users.filter (fun u => recordKey u = k)) := by
  induction users using List.reverseRecOn with
  | nil => simp [foldCombine, mergeChain]
  | append_singleton us u ih =>
    obtain ⟨ih1, ih2⟩ := ih
    rw [foldCombine_snoc, List.filter_append]
    unfold combineStep
    by_cases hku : recordKey u ∈ (foldCombine us).1
    · rw [if_pos hku]
      dsimp only
      by_cases hk : recordKey u = k
      · subst hk
        have hne := ih1.1 hku
        obtain ⟨u0, rest, hocc⟩ : ∃ u0 rest,
            us.filter (fun v => recordKey v = recordKey u) = u0 :: rest := by
          rcases hoc : us.filter (fun v => recordKey v = recordKey u) with _ | ⟨a, b⟩
          · exact absurd hoc hne
          · exact ⟨a, b, rfl⟩
        have hfilterOne :
            (foldCombine us).2.filter (fun v => recordKey v = recordKey u) =
              [rest.foldl (fun acc w => mergeInto w acc) (cloneRecord u0)] := by
          rw [ih2, hocc]
          rfl
        constructor
        · exact iff_of_true hku (by simp [hocc])
        · rw [updateFirst_filter_eq (mergeInto u) (fun w => mergeInto_key u w)
            (recordKey u) _ _ hfilterOne]
          have hu : List.filter (fun v => recordKey v = recordKey u) [u] = [u] := by
            simp
          rw [hocc, hu]
          simp [mergeChain, List.cons_append, List.foldl_append]
      · constructor
        · have hu : List.filter (fun v => recordKey v = k) [u] = [] := by
            simp [hk]
          rw [hu, List.append_nil]
          exact ih1
        · rw [updateFirst_filter_ne (mergeInto u) (fun w => mergeInto_key u w)
            k (recordKey u) hk]
          have hu : List.filter (fun v => recordKey v = k) [u] = [] := by
            simp [hk]
          rw [hu, List.append_nil, ih2]
    · rw [if_neg hku]
      dsimp only
      by_cases hk : recordKey u = k
      · subst hk
        have hocc : us.filter (fun v => recordKey v = recordKey u) = [] := by
          by_contra hne
          exact hku (ih1.2 hne)
        constructor
        · exact iff_of_true (by simp) (by simp [hocc])
        · rw [List.filter_append, ih2, hocc]
          have hu : List.filter (fun v => recordKey v = recordKey u) [u] = [u] := by
            simp
          have hc : List.filter (fun v => recordKey v = recordKey u) [cloneRecord u] =
              [cloneRecord u] := by
            simp [cloneRecord_key]
          rw [hu, hc]
          simp [mergeChain]
      · have hu : List.filter (fun v => recordKey v = k) [u] = [] := by
          simp [hk]
        have hc : List.filter (fun v => recordKey v = k) [cloneRecord u] = [] := by
          simp [cloneRecord_key, hk]
        constructor
        · rw [hu, List.append_nil]
          rw [List.mem_append]
          simp only [List.mem_singleton]
          constructor
          · rintro (h | rfl)
            · exact ih1.1 h
            · exact absurd rfl hk
          · intro h
            exact Or.inl (ih1.2 h)
        · rw [List.filter_append, ih2, hc, hu, List.append_nil, List.append_nil]

/-- The `seen` set lists exactly the keys of the combined records, in the
order keys were first encountered. -/
theorem foldCombine_keys (users : List PersonRecord) :
    (foldCombine users).2.map recordKey = (foldCombine users).1 ∧
    (foldCombine users).1 = jsSetDedup (users.map recordKey) := by
  induction users using List.reverseRecOn with
  | nil => simp [foldCombine, jsSetDedup]
  | append_singleton us u ih =>
    obtain ⟨ih1, ih2⟩ := ih
    rw [foldCombine_snoc]
    unfold combineStep
    rw [List.map_append, List.map_singleton, jsSetDedup_snoc]
    by_cases hku : recordKey u ∈ (foldCombine us).1
    · rw [if_pos hku]
      dsimp only
      have hmem : recordKey u ∈ us.map recordKey := by
        rw [ih2] at hku
        exact (mem_jsSetDedup _ _).1 hku
      rw [if_pos hmem]
      exact ⟨by rw [updateFirst_map_key (mergeInto u) (fun w => mergeInto_key u w), ih1], ih2⟩
    · rw [if_neg hku]
      dsimp only
      have hmem : recordKey u ∉ us.map recordKey := by
        intro h
        exact hku (ih2 ▸ (mem_jsSetDedup _ _).2 h)
      rw [if_neg hmem]
      constructor
      · rw [List.map_append, ih1, List.map_singleton, cloneRecord_key]
      · rw [ih2]

/-- Skill-set semantics of merging a second record into the clone of a
first one: membership in the result is membership in either input. -/
theorem mergeInto_clone_skills (u1 u2 : PersonRecord) (s : String) :
    (s ∈ ((mergeInto u2 (cloneRecord u1)).skills.getD []) ↔
      s ∈ (u1.skills.getD []) ∨ s ∈ (u2.skills.getD [])) := by
  unfold mergeInto
  rw [mergeLoc_skills, mergeDept_skills]
  unfold mergeSkills cloneRecord
  rcases h1 : u1.skills with _ | l1 <;> rcases h2 : u2.skills with _ | l2 <;>
    try rcases l2 with _ | ⟨x, xs⟩
  all_goals simp [mem_jsSetDedup, List.mem_append]

/-- The department field after a merge: filled from the incoming record
exactly when the existing value is falsy and the incoming one truthy;
otherwise the existing value is kept unchanged. -/
theorem mergeInto_department (user existing : PersonRecord) :
    (mergeInto user existing).department =
      (if !strTruthy existing.department && strTruthy user.department
       then user.department else existing.department) := by
  unfold mergeInto
  rw [mergeLoc_department]
  unfold mergeDept
  rw [mergeSkills_department]
  split_ifs with h
  · rfl
  · exact mergeSkills_department user existing

/-- The location field after a merge: filled from the incoming record
exactly when the existing value is falsy and the incoming one truthy;
otherwise the existing value is kept unchanged. -/
theorem mergeInto_location (user existing : PersonRecord) :
    (mergeInto user existing).location =
      (if !strTruthy existing.location && strTruthy user.location
       then user.location else existing.location) := by
  unfold mergeInto
  unfold mergeLoc
  rw [mergeDept_location, mergeSkills_location]
  split_ifs with h
  · rfl
  · rw [mergeDept_location, mergeSkills_location]

theorem lowerStr_eq_empty_iff (s : String) : lowerStr s = "" ↔ s = "" := by
  unfold lowerStr
  rw [show ("" : String) = List.asString [] from rfl, List.asString_inj,
    List.map_eq_nil_iff]
  constructor
  · intro h
    have := congrArg List.asString h
    rwa [String.asString_toList] at this
  · intro h
    rw [h]
    rfl

theorem mem_dropWhile_of_neg {p : Char → Bool} {x : Char} :
    ∀ {l : List Char}, x ∈ l → p x = false → x ∈ l.dropWhile p := by
  intro l
  induction l with
  | nil => intro h; simp at h
  | cons c cs ih =>
    intro hmem hpx
    rw [List.dropWhile_cons]
    split_ifs with hc
    · rcases List.mem_cons.1 hmem with rfl | h
      · rw [hpx] at hc
        simp at hc
      · exact ih h hpx
    · exact hmem

theorem jsTrim_empty_of_all {s : String}
    (h : ∀ c ∈ s.toList, jsWhitespace c = true) : jsTrim s = "" := by
  unfold jsTrim jsTrimList
  rw [List.dropWhile_eq_nil_iff.2 h]
  rfl

theorem jsTrim_ne_empty_of_exists {s : String} {c : Char}
    (hc : c ∈ s.toList) (hw : jsWhitespace c = false) : jsTrim s ≠ "" := by
  unfold jsTrim jsTrimList
  intro h
  rw [show ("" : String) = List.asString [] from rfl, List.asString_inj,
    List.reverse_eq_nil_iff] at h
  have h1 : c ∈ (s.toList.dropWhile jsWhitespace).reverse := by
    rw [List.mem_reverse]
    exact mem_dropWhile_of_neg hc hw
  have h2 := List.dropWhile_eq_nil_iff.1 h c h1
  rw [hw] at h2
  simp at h2

/-! ### The claims -/

/-- Claim C1: for every input query string and every behavior of the
external extraction and search backends (any response text, non-2xx status,
network error, or malformed payload), `getUserBySkills` returns an ordered,
possibly empty, list of `PersonRecord`s and never throws: in the explicit
exception monad the call always resolves to `ok`, carrying the merged
per-query search results. -/
theorem claim_C1_search_never_throws (env : SearchEnv) (query : String) :
    ∃ records : List PersonRecord,
      getUserBySkillsE env query = Except.ok records ∧
      getUserBySkills env query =
        combineResults ((buildSearchQueries
          (extractFilters env.configured env.llm env.detect query) query).map
          (fun s => runSearchFor (env.backend s))) :=
  ⟨getUserBySkills env query, rfl, rfl⟩

/-- Claim C6: for every `ExtractedFilters` value and raw query, the
query-building step emits at least one search query. -/
theorem claim_C6_build_nonempty (filters : ExtractedFilters) (query : String) :
    0 < (buildSearchQueries filters query).length := by
  simp only [buildSearchQueries]
  by_cases h1 : (jsSetDedup ((filters.skills.map jsTrim).filter (fun s => s ≠ ""))).isEmpty = true
  · rw [if_neg (show ¬ _ by rw [h1]; decide)]
    by_cases h2 : (strTruthy filters.department || strTruthy filters.officeNumber) = true
    · rw [if_pos h2]
      simp
    · rw [if_neg h2]
      simp
  · rw [if_pos (show _ by rw [Bool.not_eq_true] at h1; rw [h1]; rfl)]
    rw [List.length_map, List.length_pos]
    intro h
    apply h1
    rw [h]
    rfl

/-- Claim C7: the order of records in the merged output equals the order in
which their identity keys were first encountered while iterating the result
sets and their records in emission order; no reordering is performed. -/
theorem claim_C7_first_occurrence_order (resultsArrays : List (List PersonRecord)) :
    (combineResults resultsArrays).map recordKey =
      jsSetDedup (resultsArrays.flatten.map recordKey) := by
  rw [combineResults_eq_foldCombine, (foldCombine_keys _).1, (foldCombine_keys _).2]

/-- Claim C8: the filters `{skills: [Leadership, Coaching], department:
Sales}` build exactly the two expected queries, in order, for every raw
query; and a value is wrapped in double quotes by the quoting helper
exactly when it contains whitespace, a colon, a parenthesis, or a double
quote. -/
theorem claim_C8_example_and_quoting :
    (∀ query : String,
      buildSearchQueries
        { skills := [("Leadership"), ("Coaching")], department := some ("Sales"),
          officeNumber := none } query =
        [("(Skills:Leadership AND Department:Sales)"),
         ("(Skills:Coaching AND Department:Sales)")]) ∧
    (∀ v : String,
      (q v = ("\"") ++ v ++ ("\"") ↔
        ∃ c ∈ v.toList,
          jsWhitespace c = true ∨ c = ':' ∨ c = '(' ∨ c = ')' ∨ c = '"')) := by
  constructor
  · intro query
    rfl
  · intro v
    constructor
    · intro h
      by_cases hs : hasSpecialChar v = true
      · obtain ⟨c, hc, hpred⟩ := List.any_eq_true.1 hs
        refine ⟨c, hc, ?_⟩
        simp only [Bool.or_eq_true, decide_eq_true_eq] at hpred
        tauto
      · unfold q at h
        rw [if_neg hs] at h
        have hlen := congrArg String.length h
        rw [String.length_append, String.length_append] at hlen
        have h1 : ("\"" : String).length = 1 := rfl
        rw [h1] at hlen
        omega
    · rintro ⟨c, hc, hd⟩
      have hs : hasSpecialChar v = true := by
        refine List.any_eq_true.2 ⟨c, hc, ?_⟩
        simp only [Bool.or_eq_true, decide_eq_true_eq]
        tauto
      unfold q
      rw [if_pos hs]

/-- Claim C9: when a later record is merged into an existing output record
with the same key, department and location are set only if the existing
value is absent (falsy); a present (truthy) value is never overwritten —
and the merge never touches the identity fields. -/
theorem claim_C9_no_overwrite (user existing : PersonRecord) :
    (mergeInto user existing).department =
      (if !strTruthy existing.department && strTruthy user.department
       then user.department else existing.department) ∧
    (mergeInto user existing).location =
      (if !strTruthy existing.location && strTruthy user.location
       then user.location else existing.location) ∧
    (mergeInto user existing).workEmail = existing.workEmail ∧
    (mergeInto user existing).displayName = existing.displayName :=
  ⟨mergeInto_department user existing, mergeInto_location user existing,
    mergeInto_workEmail user existing, mergeInto_displayName user existing⟩

/-- Claim C10: construction with an empty or whitespace-only token throws
`GraphClient: Invalid token received.`; construction with a token holding a
non-whitespace character succeeds. -/
theorem claim_C10_constructor_validation (token : String) :
    ((∀ c ∈ token.toList, jsWhitespace c = true) →
      graphClientConstructor token =
        Except.error ("GraphClient: Invalid token received.")) ∧
    ((∃ c ∈ token.toList, jsWhitespace c = false) →
      graphClientConstructor token = Except.ok token) := by
  constructor
  · intro h
    unfold graphClientConstructor
    rw [if_pos (Or.inr (jsTrim_empty_of_all h))]
  · rintro ⟨c, hc, hw⟩
    unfold graphClientConstructor
    rw [if_neg]
    rintro (h | h)
    · rw [h] at hc
      simp at hc
    · exact jsTrim_ne_empty_of_exists hc hw h

/-- Witness for claim C10 at two concrete tokens. -/
theorem claim_C10_witness :
    graphClientConstructor (" ") =
      Except.error ("GraphClient: Invalid token received.") ∧
    graphClientConstructor ("a") = Except.ok ("a") :=
  ⟨(claim_C10_constructor_validation (" ")).1 (by decide),
   (claim_C10_constructor_validation ("a")).2 ⟨'a', by decide, by decide⟩⟩

/-- Claim C4 counterexample: with a configured extractor whose model
response is the text of an empty JSON value (parsing to an object with no
skills, department or office), `extractFilters` does not return
`[rawQuery]` as skills: it falls through to heuristic parsing and returns
the delimiter-split of the model text instead. -/
theorem claim_C4_counterexample :
    ((extractFilters true (LLMBehavior.response ("[]") (some {}))
        (fun _ => (none, none)) ("find experts")).skills = [("[]")]) ∧
    (extractFilters true (LLMBehavior.response ("[]") (some {}))
        (fun _ => (none, none)) ("find experts")).skills ≠ [("find experts")] := by
  constructor
  · rfl
  · decide

/-- Claim C4 amended: `skills = [rawQuery]` holds when the extraction
backend is unconfigured, when the call fails, and when the model response
is empty; but when a parsed response contains no skills, department or
office, the code instead falls through to heuristic parsing, and the skills
become the non-empty delimiter-split segments of the model text — equal to
`[rawQuery]` only when that split is empty. -/
theorem claim_C4_amended (query content : String) (parsed : Option ParsedObj)
    (p : ParsedObj) (detect : String → Option String × Option String)
    (llm : LLMBehavior)
    (hp : parsedSkills p = [] ∧ truthyTrim p.department = none ∧
      truthyTrim p.officeNumber = none) :
    (extractFilters false llm detect query).skills = [query] ∧
    (extractFilters true LLMBehavior.callError detect query).skills = [query] ∧
    (jsTrim content = "" →
      (extractFilters true (LLMBehavior.response content parsed) detect
        query).skills = [query]) ∧
    (extractFilters true (LLMBehavior.response content (some p)) detect
        query).skills =
      (if (splitDelims (jsTrim content)).isEmpty then [query]
       else splitDelims (jsTrim content)) := by
  obtain ⟨hs, hd, ho⟩ := hp
  have hstruct : structuredFilters p = none := by
    simp only [structuredFilters, hs, hd, ho]
    rfl
  refine ⟨rfl, rfl, ?_, ?_⟩
  · intro h
    simp [extractFilters, extractFiltersTry, h]
  · by_cases h : jsTrim content = ""
    · rw [h]
      simp [extractFilters, extractFiltersTry, h]
      rw [if_pos (show splitDelims ("") = [] from rfl)]
    · simp only [extractFilters, extractFiltersTry, Bool.not_true]
      rw [if_neg (by decide), if_neg h, hstruct]
      simp only [heuristicFilters]
  

/-- Witness for claim C4 at concrete inputs: the query `find experts`, the
model text of an empty JSON value, and the trivial detect behavior. -/
theorem claim_C4_witness :
    (extractFilters false LLMBehavior.callError (fun _ => (none, none))
      ("find experts")).skills = [("find experts")] ∧
    (extractFilters true LLMBehavior.callError (fun _ => (none, none))
      ("find experts")).skills = [("find experts")] ∧
    (jsTrim ("[]") = "" →
      (extractFilters true (LLMBehavior.response ("[]") none)
        (fun _ => (none, none)) ("find experts")).skills = [("find experts")]) ∧
    (extractFilters true (LLMBehavior.response ("[]") (some {}))
        (fun _ => (none, none)) ("find experts")).skills =
      (if (splitDelims (jsTrim ("[]"))).isEmpty then [("find experts")]
       else splitDelims (jsTrim ("[]"))) :=
  claim_C4_amended ("find experts") ("[]") none {} (fun _ => (none, none))
    LLMBehavior.callError ⟨rfl, rfl, rfl⟩

/-- Claim C5 counterexample: with the extraction backend unconfigured, the
raw query `anyone in Helsinki office` does not build the unquoted query the
claim states: the value contains whitespace, so the quoting helper wraps it
in double quotes. -/
theorem claim_C5_counterexample :
    buildSearchQueries
      (extractFilters false LLMBehavior.callError (fun _ => (none, none))
        ("anyone in Helsinki office"))
      ("anyone in Helsinki office") ≠ [("(Skills:anyone in Helsinki office)")] := by
  decide

/-- Claim C5 amended: with the extraction backend unconfigured, the raw
query `anyone in Helsinki office` produces exactly one built search query,
the raw query passed through into the Skills field wrapped in double quotes
because it contains whitespace. -/
theorem claim_C5_amended_fallback_query :
    buildSearchQueries
      (extractFilters false LLMBehavior.callError (fun _ => (none, none))
        ("anyone in Helsinki office"))
      ("anyone in Helsinki office") =
      [("(Skills:\"anyone in Helsinki office\")")] := by
  rfl

/-- Claim C3: when two result sets each contain one record with the same
non-empty work email compared case-insensitively, the merge produces
exactly one output record for that email key, and its skill set is the
union of both input records' skill sets. -/
theorem claim_C3_email_dedup_union (rs1 rs2 : List PersonRecord)
    (u1 u2 : PersonRecord) (e1 e2 : String)
    (he1 : u1.workEmail = some e1) (he2 : u2.workEmail = some e2)
    (hne : e1 ≠ "") (hlow : lowerStr e1 = lowerStr e2)
    (hf1 : rs1.filter (fun w => recordKey w = recordKey u1) = [u1])
    (hf2 : rs2.filter (fun w => recordKey w = recordKey u2) = [u2]) :
    ∃ v, (combineResults [rs1, rs2]).filter
        (fun w => recordKey w = recordKey u1) = [v] ∧
      (∀ s, s ∈ (v.skills.getD []) ↔
        s ∈ (u1.skills.getD []) ∨ s ∈ (u2.skills.getD [])) := by
  have hne2 : e2 ≠ "" := by
    intro h
    rw [h] at hlow
    exact hne ((lowerStr_eq_empty_iff e1).1 hlow)
  have hkey : recordKey u2 = recordKey u1 := by
    unfold recordKey
    rw [he1, he2]
    simp only [if_pos hne, if_pos hne2, hlow]
  rw [hkey] at hf2
  have hchar := (foldCombine_spec (rs1 ++ rs2) (recordKey u1)).2
  rw [List.filter_append, hf1, hf2] at hchar
  refine ⟨mergeInto u2 (cloneRecord u1), ?_,
    fun s => mergeInto_clone_skills u1 u2 s⟩
  rw [combineResults_eq_foldCombine,
    show ([rs1, rs2] : List (List PersonRecord)).flatten = rs1 ++ rs2 by simp,
    hchar]
  rfl

/-- Two concrete records sharing the `a@x.com` email up to case, used to
witness claim C3. -/
def personAlice : PersonRecord :=
  { displayName := ("Alice"), workEmail := some ("A@x.com"),
    skills := some [("Java")] }

/-- Second concrete record for the claim C3 witness. -/
def personAliceB : PersonRecord :=
  { displayName := ("Alice B"), workEmail := some ("a@X.com"),
    skills := some [("SQL")], department := some ("Eng") }

/-- Witness for claim C3 on two singleton result sets. -/
theorem claim_C3_witness :
    ∃ v, (combineResults [[personAlice], [personAliceB]]).filter
        (fun w => recordKey w = recordKey personAlice) = [v] ∧
      (∀ s, s ∈ (v.skills.getD []) ↔
        s ∈ (personAlice.skills.getD []) ∨ s ∈ (personAliceB.skills.getD [])) :=
  claim_C3_email_dedup_union [personAlice] [personAliceB] personAlice personAliceB
    ("A@x.com") ("a@X.com") rfl rfl (by decide) (by decide) (by decide) (by decide)

/-- Every record fed into `combineResults` is represented in the output:
some output record carries its identity key. -/
theorem combine_covers_keys (rss : List (List PersonRecord)) (u : PersonRecord)
    (hu : u ∈ rss.flatten) :
    ∃ v ∈ combineResults rss, recordKey v = recordKey u := by
  have hfilter_ne : rss.flatten.filter (fun w => recordKey w = recordKey u) ≠ [] := by
    intro hnil
    have hin : u ∈ rss.flatten.filter (fun w => recordKey w = recordKey u) :=
      List.mem_filter.2 ⟨hu, by simp⟩
    rw [hnil] at hin
    simp at hin
  obtain ⟨u0, rest, hocc⟩ : ∃ u0 rest,
      rss.flatten.filter (fun w => recordKey w = recordKey u) = u0 :: rest := by
    rcases hoc : rss.flatten.filter (fun w => recordKey w = recordKey u) with _ | ⟨a, b⟩
    · exact absurd hoc hfilter_ne
    · exact ⟨a, b, rfl⟩
  have hchar := (foldCombine_spec rss.flatten (recordKey u)).2
  rw [hocc] at hchar
  simp only [mergeChain] at hchar
  refine ⟨rest.foldl (fun acc w => mergeInto w acc) (cloneRecord u0), ?_, ?_⟩
  · rw [combineResults_eq_foldCombine]
    apply List.mem_of_mem_filter (p := fun w => recordKey w = recordKey u)
    rw [hchar]
    exact List.mem_singleton_self _
  · have h1 : u0 ∈ rss.flatten.filter (fun w => recordKey w = recordKey u) := by
      rw [hocc]
      exact List.mem_cons_self _ _
    have h2 := (List.mem_filter.1 h1).2
    rw [chain_key, cloneRecord_key]
    exact of_decide_eq_true h2

/-- Claim C2: when the backend request for one built query fails (non-2xx
response or network error), that query contributes an empty result set and
no records, the records of every other query still appear in the merged
output under their identity keys, and the overall call still succeeds. -/
theorem claim_C2_partial_failure (env : SearchEnv) (query failingQuery : String)
    (hmem : failingQuery ∈ buildSearchQueries
      (extractFilters env.configured env.llm env.detect query) query)
    (hfail : env.backend failingQuery = BackendResponse.networkError ∨
      ∃ status body, env.backend failingQuery = BackendResponse.http status body ∧
        respOk status = false) :
    runSearchFor (env.backend failingQuery) = [] ∧
    (∀ s ∈ buildSearchQueries
        (extractFilters env.configured env.llm env.detect query) query,
      ∀ u ∈ runSearchFor (env.backend s),
        ∃ v ∈ getUserBySkills env query, recordKey v = recordKey u) ∧
    getUserBySkillsE env query = Except.ok (getUserBySkills env query) := by
  refine ⟨?_, ?_, rfl⟩
  · rcases hfail with h | ⟨status, body, h, hok⟩
    · rw [h]
      rfl
    · rw [h]
      unfold runSearchFor runSearchForTry
      simp [hok]
  · intro s hs u hu
    have hujoin : u ∈ ((buildSearchQueries
        (extractFilters env.configured env.llm env.detect query) query).map
        (fun t => runSearchFor (env.backend t))).flatten :=
      List.mem_flatten.2 ⟨runSearchFor (env.backend s), List.mem_map_of_mem _ hs, hu⟩
    exact combine_covers_keys _ u hujoin

/-- A concrete environment for the claim C2 witness: extraction yields the
skills `a` and `b`; the backend answers the first built query with one row
and fails the second with HTTP 500. -/
def envPartialFailure : SearchEnv :=
  { configured := true,
    llm := LLMBehavior.response ("x") (some { skills := some [("a"), ("b")] }),
    detect := fun _ => (none, none),
    backend := fun s =>
      if s = ("(Skills:a)") then
        BackendResponse.http 200
          (BackendBody.json [[{ Key := ("PreferredName"), Value := ("Alice") }]])
      else BackendResponse.http 500 BackendBody.malformed }

/-- Witness for claim C2: two built queries, the second failing with
HTTP 500. -/
theorem claim_C2_witness :
    runSearchFor (envPartialFailure.backend ("(Skills:b)")) = [] ∧
    (∀ s ∈ buildSearchQueries
        (extractFilters envPartialFailure.configured envPartialFailure.llm
          envPartialFailure.detect ("find")) ("find"),
      ∀ u ∈ runSearchFor (envPartialFailure.backend s),
        ∃ v ∈ getUserBySkills envPartialFailure ("find"),
          recordKey v = recordKey u) ∧
    getUserBySkillsE envPartialFailure ("find") =
      Except.ok (getUserBySkills envPartialFailure ("find")) :=
  claim_C2_partial_failure envPartialFailure ("find") ("(Skills:b)")
    (by decide)
    (Or.inr ⟨500, BackendBody.malformed, rfl, rfl⟩)
